import Mathlib

/-!
Shallow embedding of the HomeCreditScoring EDA toolkit
(`src/models/processing.py` and `src/models/ploting.py`).

A dataframe is modelled as an ordered list of named columns; each column
carries its pandas storage dtype and an ordered list of cell values.
Cell values are integers, strings, or the missing marker (NaN / None).
Python exceptions are modelled by an explicit error type carried in
`Except`; the distinct Python exception classes raised by the source
(`AssertionError` with its message, `AttributeError`, `ValueError` from
`list.remove`, `KeyError` from indexing) are kept apart.
-/

/-- A cell value of a dataframe column: an integer, a string, or the
missing marker (pandas NaN / None). -/
inductive Val where
  | vInt : Int → Val
  | vStr : String → Val
  | vNA  : Val
deriving DecidableEq, Repr

/-- The pandas storage dtypes that `_get_column_types` dispatches on:
`datetime64`, `bool`, `object`, `float64`, `int64`, and anything else. -/
inductive Dtype where
  | datetime64 | boolean | object | float64 | int64 | other
deriving DecidableEq, Repr

/-- One dataframe column: its storage dtype and its cell values in row order. -/
structure Column where
  dtype  : Dtype
  values : List Val
deriving DecidableEq, Repr

/-- A dataframe: ordered, named columns. -/
structure Frame where
  cols : List (String × Column)
deriving DecidableEq, Repr

/-- The column names of a frame, in order (`data.columns`). -/
def Frame.names (f : Frame) : List String := f.cols.map Prod.fst

/-- Column lookup, `data[name]`: first column with the given name, if any. -/
def Frame.find (f : Frame) (name : String) : Option Column :=
  (f.cols.find? (fun p => p.1 = name)).map Prod.snd

/-- Replace the values of the named column by applying `g`
(`data[name] = g(data[name])`); other columns are untouched. -/
def Frame.update (f : Frame) (name : String) (g : Column → Column) : Frame :=
  ⟨f.cols.map (fun p => if p.1 = name then (p.1, g p.2) else p)⟩

/-- The Python exceptions the source can raise, kept distinct:
assertion failures carry their message. -/
inductive Err where
  | assertError : String → Err
  | attrError   : String → Err
  | valueError  : Err
  | keyError    : Err
deriving DecidableEq, Repr

/-- Whether an `Except` result is a success. -/
def isOkE {α : Type} : Except Err α → Bool
  | .ok _    => true
  | .error _ => false

/-- Whether an error is the `AttributeError` raised by `change_dtype_group`. -/
def Err.isAttr : Err → Bool
  | .attrError _ => true
  | _            => false

/-- Distinct values in order of first appearance, carrying the set of
values already seen. -/
def pdUniqueAux (seen : List Val) : List Val → List Val
  | []      => []
  | v :: vs => if v ∈ seen then pdUniqueAux seen vs else v :: pdUniqueAux (v :: seen) vs

/-- `pd.Series.unique()`: distinct values in order of first appearance
(pandas reports NaN at most once). -/
def pdUnique (vs : List Val) : List Val := pdUniqueAux [] vs

/-- `pd.notna(series.unique()).sum()`: the number of distinct
non-missing values of a column (processing.py line 135). -/
def nUnique (vs : List Val) : Nat :=
  (pdUnique vs).countP (fun v => v ≠ Val.vNA)

/-- The four built-in semantic buckets of the classifier. -/
inductive Bucket where
  | Continuous | Binary | Nominal | Unknown
deriving DecidableEq, Repr

/-- The dictionary key used for each built-in bucket. -/
def Bucket.key : Bucket → String
  | .Continuous => "Continuous"
  | .Binary     => "Binary"
  | .Nominal    => "Nominal"
  | .Unknown    => "Unknown"

/-- The classification of a single column by the loop body of
`_get_column_types` (processing.py lines 133-154): `none` means the
column is skipped (datetime), otherwise the bucket it is appended to. -/
def classifyColumn (c : Column) : Option Bucket :=
  let n := nUnique c.values
  match c.dtype with
  | .datetime64 => none
  | .boolean    => some .Binary
  | .object     => if n = 2 then some .Binary else some .Nominal
  | .float64    =>
      if n = 2 then some .Binary
      else if 3 ≤ n ∧ n ≤ 15 then some .Unknown
      else some .Continuous
  | .int64      =>
      if n = 2 then some .Binary
      else if 3 ≤ n ∧ n ≤ 15 then some .Unknown
      else some .Continuous
  | .other      => some .Unknown

/-- `list.remove(x)`: drop the first occurrence of `x`. -/
def removeFirst (xs : List String) (s : String) : List String :=
  match xs with
  | []      => []
  | y :: ys => if y = s then ys else y :: removeFirst ys s

/-- `all_columns.remove(col)` where `col` may be Python `None`
(the constructor passes `[target_column, id_column]` with `id_column`
possibly `None`): raises `ValueError` when the element is not in the
list; `None` is never equal to a string column name. -/
def pyRemove (xs : List String) (x : Option String) : Except Err (List String) :=
  match x with
  | some s => if s ∈ xs then .ok (removeFirst xs s) else .error .valueError
  | none   => .error .valueError

/-- `for col in exclude_col: all_columns.remove(col)`
(processing.py lines 123-124). -/
def removeAll (xs : List String) : List (Option String) → Except Err (List String)
  | []      => .ok xs
  | e :: es => match pyRemove xs e with
      | .ok xs'   => removeAll xs' es
      | .error er => .error er

/-- The list of columns `_get_column_types` considers
(processing.py lines 117-126), after the mutual-exclusion assertion. -/
def consideredColumns (f : Frame) (excludeCol : Option (List (Option String)))
    (includeCol : Option (List String)) : Except Err (List String) :=
  if excludeCol.isSome ∧ includeCol.isSome then
    .error (.assertError "Could set only one param")
  else
    match includeCol with
    | some inc => .ok inc
    | none     =>
        match excludeCol with
        | some exc => removeAll f.names exc
        | none     => .ok f.names

/-- Classify every considered column, pairing it with its bucket
(`data.dtypes[column]` raises `KeyError` when the name is not a column). -/
def classifyAll (f : Frame) : List String → Except Err (List (String × Option Bucket))
  | []      => .ok []
  | c :: cs =>
      match f.find c with
      | none     => .error .keyError
      | some col =>
          match classifyAll f cs with
          | .ok rest  => .ok ((c, classifyColumn col) :: rest)
          | .error er => .error er

/-- The columns appended to one bucket's list, in iteration order. -/
def pickBucket (classified : List (String × Option Bucket)) (b : Bucket) : List String :=
  classified.filterMap (fun p => if p.2 = some b then some p.1 else none)

/-- The bucket mapping `column_types`, an insertion-ordered dictionary
from bucket name to column-name list. -/
abbrev ColumnTypes := List (String × List String)

/-- Dictionary lookup `d[k]` as an option. -/
def dictGet (d : ColumnTypes) (k : String) : Option (List String) :=
  (d.find? (fun p => p.1 = k)).map Prod.snd

/-- `_get_column_types(data, exclude_col, include_col)`
(processing.py lines 92-162): the four-bucket mapping. -/
def getColumnTypes (f : Frame) (excludeCol : Option (List (Option String)))
    (includeCol : Option (List String)) : Except Err ColumnTypes :=
  match consideredColumns f excludeCol includeCol with
  | .error er => .error er
  | .ok allColumns =>
      match classifyAll f allColumns with
      | .error er => .error er
      | .ok classified =>
          .ok [("Continuous", pickBucket classified .Continuous),
               ("Binary",     pickBucket classified .Binary),
               ("Nominal",    pickBucket classified .Nominal),
               ("Unknown",    pickBucket classified .Unknown)]

/-- `count_column_dtypes` (processing.py lines 164-170): the per-bucket
column counts, as the one-row table's (bucket, count) pairs. -/
def countColumnDtypes (ct : ColumnTypes) : List (String × Nat) :=
  ct.map (fun p => (p.1, p.2.length))

/-- `_is_valid_target` (processing.py lines 87-90):
`set(data[target_column].unique()) == {1, 0}`; indexing a missing
column raises `KeyError`. -/
def isValidTarget (f : Frame) (targetColumn : String) : Except Err Bool :=
  match f.find targetColumn with
  | none     => .error .keyError
  | some col => .ok (decide ((pdUnique col.values).toFinset = {Val.vInt 1, Val.vInt 0}))

/-- The EDA session state held by `BinaryClassEDA`. -/
structure EDAState where
  data             : Frame
  targetColumn     : String
  tableDescription : Option (List (String × String))
  idColumn         : Option String
  dateColumn       : Option String
  columnTypes      : ColumnTypes
deriving Repr

/-- `BinaryClassEDA.__init__` (processing.py lines 70-85): validate the
target column, then classify with `exclude_col=[target_column, id_column]`. -/
def binaryClassEDAInit (f : Frame) (targetColumn : String)
    (tableDescription : Option (List (String × String)))
    (idColumn : Option String) (dateColumn : Option String) :
    Except Err EDAState :=
  match isValidTarget f targetColumn with
  | .error er => .error er
  | .ok valid =>
      if !valid then .error (.assertError "Target column must contain 1 and 0")
      else
        match getColumnTypes f (some [some targetColumn, idColumn]) none with
        | .error er => .error er
        | .ok ct    => .ok ⟨f, targetColumn, tableDescription, idColumn, dateColumn, ct⟩

/-- `count_column_dtypes` on a session: a function of the bucket mapping
alone, independent of the target column. -/
def edaCountColumnDtypes (s : EDAState) : List (String × Nat) :=
  countColumnDtypes s.columnTypes

/-- The entry list after `column_types[k].extend(xs)` (dictionary keys
are unique in Python, so updating every entry with that key is the
same operation). -/
def dictExtendList (d : ColumnTypes) (k : String) (xs : List String) : ColumnTypes :=
  d.map (fun p => if p.1 = k then (p.1, p.2 ++ xs) else p)

/-- `column_types[k].extend(xs)`: `KeyError` when `k` is not a key. -/
def dictExtend (d : ColumnTypes) (k : String) (xs : List String) :
    Except Err ColumnTypes :=
  match dictGet d k with
  | none   => .error .keyError
  | some _ => .ok (dictExtendList d k xs)

/-- `column_types[k] = xs` for an existing key `k`. -/
def dictSet (d : ColumnTypes) (k : String) (xs : List String) : ColumnTypes :=
  d.map (fun p => if p.1 = k then (p.1, xs) else p)

/-- The loop `for key in column_types: column_types[key] = [c for c in
column_types[key] if c not in change_columns]` (processing.py lines
205-206). -/
def pruneBuckets (d : ColumnTypes) (cols : List String) : ColumnTypes :=
  d.map (fun p => (p.1, p.2.filter (fun c => c ∉ cols)))

/-- `change_dtype_group(new_dtype, old_dtype, change_columns, on_delete)`
(processing.py lines 172-213), acting on the bucket mapping.
With `change_columns` unset it asserts `old_dtype is not None` (a bare
assert, empty message) and moves the whole old bucket; with
`old_dtype` unset it prunes the moved names from every bucket (when
`on_delete`) and appends them to the new bucket; with both set it
raises `AttributeError`. -/
def changeDtypeGroup (ct : ColumnTypes) (newDtype : String)
    (oldDtype : Option String) (changeColumns : Option (List String))
    (onDelete : Bool) : Except Err ColumnTypes :=
  match changeColumns with
  | none =>
      match oldDtype with
      | none     => .error (.assertError "")
      | some old =>
          match dictGet ct old with
          | none         => .error .keyError
          | some oldList =>
              match dictExtend ct newDtype oldList with
              | .error er => .error er
              | .ok ct1   =>
                  if onDelete then .ok (dictSet ct1 old []) else .ok ct1
  | some cols =>
      match oldDtype with
      | some _ => .error (.attrError "Set old_dtype or columns")
      | none   =>
          let ct1 := if onDelete then pruneBuckets ct cols else ct
          dictExtend ct1 newDtype cols

/-- `create_dtype_group(group_name)` (processing.py lines 215-223):
`column_types[group_name] = []`, overwriting an existing key or
appending a new one. -/
def createDtypeGroup (ct : ColumnTypes) (groupName : String) : ColumnTypes :=
  match dictGet ct groupName with
  | some _ => dictSet ct groupName []
  | none   => ct ++ [(groupName, [])]

/-- One row of the column-description CSV:
`(Table, Row, Description, Special)`. -/
structure DescRow where
  table       : String
  row         : String
  description : String
  special     : String
deriving DecidableEq, Repr

/-- Insert into a string-valued dictionary, overwriting an existing key. -/
def strDictInsert (d : List (String × String)) (k v : String) :
    List (String × String) :=
  if (d.find? (fun p => p.1 = k)).isSome
  then d.map (fun p => if p.1 = k then (p.1, v) else p)
  else d ++ [(k, v)]

/-- Lookup in a string-valued dictionary. -/
def strDictGet (d : List (String × String)) (k : String) : Option String :=
  (d.find? (fun p => p.1 = k)).map Prod.snd

/-- `get_table_description(filename, table_name)` (processing.py lines
5-29), applied to the parsed rows of the CSV: keep the rows whose
`Table` equals `table_name`, project to `(Row, Description)`, and build
the dictionary `{k: v for k, v in ...}` (later rows overwrite earlier
ones, as in a Python dict comprehension). -/
def getTableDescription (rows : List DescRow) (tableName : String) :
    List (String × String) :=
  ((rows.filter (fun r => r.table = tableName)).map
      (fun r => (r.row, r.description))).foldl
    (fun d p => strDictInsert d p.1 p.2) []

/-- `change_dtype_group` on a session: it reads and writes only the
bucket mapping, never the data or the target column. -/
def edaChangeDtypeGroup (s : EDAState) (newDtype : String)
    (oldDtype : Option String) (changeColumns : Option (List String))
    (onDelete : Bool) : Except Err EDAState :=
  match changeDtypeGroup s.columnTypes newDtype oldDtype changeColumns onDelete with
  | .error er => .error er
  | .ok ct    => .ok { s with columnTypes := ct }

/-- The text rendering of a cell value, as pandas renders it on an axis. -/
def valText : Val → String
  | .vInt n => toString n
  | .vStr s => s
  | .vNA    => ""

/-- `series.astype('str')` on the conceptual column: every non-missing
value becomes its text rendering and the dtype becomes `object`;
missing entries stay missing (in the toolkit they are rendered by the
subsequent `fillna`). -/
def astypeStr (c : Column) : Column :=
  ⟨Dtype.object, c.values.map (fun v => if v = Val.vNA then Val.vNA else Val.vStr (valText v))⟩

/-- `series.fillna(s)`: replace every missing entry by the string `s`. -/
def fillna (c : Column) (s : String) : Column :=
  ⟨c.dtype, c.values.map (fun v => if v = Val.vNA then Val.vStr s else v)⟩

/-- What the per-column loop of `plot_categorical_dist_by_target`
(processing.py lines 303-308) does to one plotted column: coerce to
text when not already `object`, then fill missing values with the
literal text "NaN". -/
def toolkitCoerce (c : Column) : Column :=
  fillna (if c.dtype ≠ Dtype.object then astypeStr c else c) "NaN"

/-- What the per-column loop of `plot_categorical_bars`
(ploting.py lines 40-41) does to one plotted column: coerce to text
when not already `object` (no fill of missing values). -/
def barsCoerce (c : Column) : Column :=
  if c.dtype ≠ Dtype.object then astypeStr c else c

/-- The in-place mutation of the dataframe performed by
`plot_categorical_dist_by_target` over its plotted columns; the frame
is left in this state when the method returns. -/
def plotMutateToolkit (f : Frame) (plotColumns : List String) : Frame :=
  plotColumns.foldl (fun d col => d.update col toolkitCoerce) f

/-- The in-place mutation of the dataframe performed by
`plot_categorical_bars` over its plotted columns. -/
def plotMutateBars (f : Frame) (columnNames : List String) : Frame :=
  columnNames.foldl (fun d col => d.update col barsCoerce) f

/-- A value-frequency distribution as produced by
`value_counts(normalize=True)`: labels paired with their relative
frequencies, listed in decreasing order of frequency. -/
abbrev FreqDist := List (Val × ℚ)

/-- The labels of a distribution in its existing order (`dist.index`). -/
def distLabels (dist : FreqDist) : List Val := dist.map Prod.fst

/-- `dist[label]`: the frequency recorded for a label (0 when absent). -/
def freqOf (dist : FreqDist) (l : Val) : ℚ :=
  ((dist.find? (fun p => p.1 = l)).map Prod.snd).getD 0

/-- `max(full_dist)`: the largest recorded frequency. -/
def maxFreq : FreqDist → ℚ
  | []      => 0
  | p :: ps => (ps.map Prod.snd).foldl max p.2

/-- `min(full_dist)`: the smallest recorded frequency. -/
def minFreq : FreqDist → ℚ
  | []      => 0
  | p :: ps => (ps.map Prod.snd).foldl min p.2

/-- The layout decision of both plotting routines
(processing.py line 325, ploting.py line 54): two charts exactly when
`max(full_dist) > 10 * min(full_dist)`. -/
def twoChartLayout (dist : FreqDist) : Bool :=
  maxFreq dist > 10 * minFreq dist

/-- `major_labels` (processing.py lines 327-328, ploting.py lines 56-57):
the labels whose overall frequency exceeds `0.1 * max(full_dist)`,
in the distribution's order. -/
def majorLabels (dist : FreqDist) : List Val :=
  (distLabels dist).filter (fun l => freqOf dist l > (1 / 10 : ℚ) * maxFreq dist)

/-- `minor_labels = all_labels[len(major_labels):]`
(processing.py line 330, ploting.py line 58). -/
def minorLabels (dist : FreqDist) : List Val :=
  (distLabels dist).drop (majorLabels dist).length

/-- The distinct-value count the spec describes: the number of distinct
non-missing values of the column, stated independently of the
`unique`-then-`notna` route the code takes. -/
def specDistinctNonMissing (vs : List Val) : Nat :=
  ((vs.filter (fun v => v ≠ Val.vNA)).dedup).length

/-- The list a named built-in bucket holds in a bucket mapping. -/
def bucketList (r : ColumnTypes) (b : Bucket) : List String :=
  (dictGet r b.key).getD []

/-- Whether a name denotes a date/time column of the frame. -/
def isDatetimeCol (f : Frame) (c : String) : Bool :=
  decide (((f.find c).map Column.dtype) = some Dtype.datetime64)

/-- The `ColumnTypes` observation of a session-returning operation. -/
def edaResultTypes : Except Err EDAState → Except Err ColumnTypes
  | .ok s     => .ok s.columnTypes
  | .error er => .error er

/-- A small concrete dataframe used to instantiate the theorems:
a 0/1 target, an id column, a two-valued text column, a numeric column
with a missing value, and a datetime column. -/
def frW : Frame :=
  ⟨[("TARGET", ⟨.int64, [.vInt 1, .vInt 0, .vInt 1]⟩),
    ("ID",     ⟨.int64, [.vInt 1, .vInt 2, .vInt 3]⟩),
    ("CAT",    ⟨.object, [.vStr "x", .vStr "y", .vStr "x"]⟩),
    ("NUM",    ⟨.float64, [.vInt 1, .vInt 2, .vNA]⟩),
    ("DT",     ⟨.datetime64, [.vInt 1, .vInt 2, .vInt 3]⟩)]⟩

/-- The bucket mapping the classifier computes for `frW` with the
target and id columns excluded. -/
def ctW : ColumnTypes :=
  [("Continuous", []), ("Binary", ["CAT", "NUM"]), ("Nominal", []), ("Unknown", [])]

/-- A dataframe whose target column holds a value other than 0 and 1. -/
def frBad : Frame :=
  ⟨[("TARGET", ⟨.int64, [.vInt 0, .vInt 1, .vInt 2]⟩),
    ("ID",     ⟨.int64, [.vInt 1, .vInt 2, .vInt 3]⟩)]⟩

/-- A small concrete bucket mapping used to instantiate the
reassignment theorems. -/
def ctSmall : ColumnTypes :=
  [("Continuous", ["a", "b"]), ("Binary", ["c"]), ("Nominal", []), ("Unknown", [])]

/-- Concrete description rows covering two table names. -/
def rowsW : List DescRow :=
  [⟨"A", "c1", "d1", ""⟩, ⟨"B", "c2", "d2", ""⟩, ⟨"A", "c3", "d3", ""⟩]

/-- A concrete skewed distribution: one label eleven times as frequent
as the other. -/
def distW : FreqDist := [(.vStr "a", 11), (.vStr "b", 1)]

lemma mem_pdUniqueAux (v : Val) :
    ∀ (vs seen : List Val), v ∈ pdUniqueAux seen vs ↔ v ∈ vs ∧ v ∉ seen := by
  intro vs
  induction vs with
  | nil => simp [pdUniqueAux]
  | cons w ws ih =>
      intro seen
      by_cases hw : w ∈ seen
      · rw [pdUniqueAux, if_pos hw, ih]
        by_cases hvw : v = w
        · subst hvw; simp [hw]
        · simp [hvw]
      · rw [pdUniqueAux, if_neg hw]
        simp only [List.mem_cons, ih]
        by_cases hvw : v = w
        · subst hvw; simp [hw]
        · simp [hvw]

lemma mem_pdUnique (v : Val) (vs : List Val) : v ∈ pdUnique vs ↔ v ∈ vs := by
  rw [pdUnique, mem_pdUniqueAux]
  simp

lemma nodup_pdUniqueAux : ∀ (vs seen : List Val), (pdUniqueAux seen vs).Nodup := by
  intro vs
  induction vs with
  | nil => simp [pdUniqueAux]
  | cons w ws ih =>
      intro seen
      by_cases hw : w ∈ seen
      · rw [pdUniqueAux, if_pos hw]; exact ih seen
      · rw [pdUniqueAux, if_neg hw]
        refine List.nodup_cons.mpr ⟨?_, ih _⟩
        rw [mem_pdUniqueAux]
        simp

lemma nodup_pdUnique (vs : List Val) : (pdUnique vs).Nodup :=
  nodup_pdUniqueAux vs []

lemma nUnique_eq_spec (vs : List Val) : nUnique vs = specDistinctNonMissing vs := by
  have h1 : nUnique vs = ((pdUnique vs).filter (fun v => v ≠ Val.vNA)).length := by
    rw [nUnique, List.countP_eq_length_filter]
  have hn1 : ((pdUnique vs).filter (fun v => v ≠ Val.vNA)).Nodup :=
    (nodup_pdUnique vs).filter _
  have hn2 : ((vs.filter (fun v => v ≠ Val.vNA)).dedup).Nodup := List.nodup_dedup _
  have hfin : ((pdUnique vs).filter (fun v => v ≠ Val.vNA)).toFinset =
      ((vs.filter (fun v => v ≠ Val.vNA)).dedup).toFinset := by
    ext v
    simp [List.mem_toFinset, List.mem_filter, List.mem_dedup, mem_pdUnique]
  rw [h1, specDistinctNonMissing, ← List.toFinset_card_of_nodup hn1,
    ← List.toFinset_card_of_nodup hn2, hfin]

/-- C1: the classifier buckets a column by storage type and its number
`n` of distinct non-missing values: date/time columns are skipped,
boolean columns are Binary, textual columns are Binary when `n = 2`
and Nominal otherwise, float64/int64 columns are Binary when `n = 2`,
Unknown when `3 ≤ n ≤ 15` and Continuous otherwise, and any other
storage type is Unknown; `n` counts only non-missing values, so a
numeric column with values {1, 2, missing, missing} has `n = 2` and is
bucketed Binary. -/
theorem claim_C1 (c : Column) :
    nUnique c.values = specDistinctNonMissing c.values
    ∧ (c.dtype = .datetime64 → classifyColumn c = none)
    ∧ (c.dtype = .boolean → classifyColumn c = some .Binary)
    ∧ (c.dtype = .object → classifyColumn c =
        if specDistinctNonMissing c.values = 2 then some .Binary else some .Nominal)
    ∧ ((c.dtype = .float64 ∨ c.dtype = .int64) → classifyColumn c =
        if specDistinctNonMissing c.values = 2 then some .Binary
        else if 3 ≤ specDistinctNonMissing c.values ∧ specDistinctNonMissing c.values ≤ 15
          then some .Unknown
        else some .Continuous)
    ∧ (c.dtype = .other → classifyColumn c = some .Unknown)
    ∧ nUnique [.vInt 1, .vInt 2, .vNA, .vNA] = 2
    ∧ classifyColumn ⟨.float64, [.vInt 1, .vInt 2, .vNA, .vNA]⟩ = some .Binary := by
  refine ⟨nUnique_eq_spec c.values, ?_, ?_, ?_, ?_, ?_, by decide, by decide⟩
  all_goals intro h
  · simp [classifyColumn, h]
  · simp [classifyColumn, h]
  · simp [classifyColumn, h, nUnique_eq_spec]
  · rcases h with h | h <;> simp [classifyColumn, h, nUnique_eq_spec]
  · simp [classifyColumn, h]

theorem claim_C1_witness :
    Column.dtype ⟨Dtype.object, [Val.vStr "a", Val.vStr "b", Val.vStr "c"]⟩ = Dtype.object
    ∧ classifyColumn ⟨Dtype.object, [Val.vStr "a", Val.vStr "b", Val.vStr "c"]⟩
        = some Bucket.Nominal
    ∧ Column.dtype ⟨Dtype.float64, [Val.vInt 1, Val.vInt 2, Val.vNA, Val.vNA]⟩ = Dtype.float64
    ∧ classifyColumn ⟨Dtype.float64, [Val.vInt 1, Val.vInt 2, Val.vNA, Val.vNA]⟩
        = some Bucket.Binary := by
  refine ⟨rfl, ?_, rfl, ?_⟩
  · exact ((claim_C1 ⟨Dtype.object, [Val.vStr "a", Val.vStr "b", Val.vStr "c"]⟩).2.2.2.1
      rfl).trans (by decide)
  · exact ((claim_C1 ⟨Dtype.float64, [Val.vInt 1, Val.vInt 2, Val.vNA, Val.vNA]⟩).2.2.2.2.1
      (Or.inl rfl)).trans (by decide)

lemma removeFirst_eq_filter : ∀ (xs : List String) (c : String), xs.Nodup →
    removeFirst xs c = xs.filter (fun y => y ≠ c) := by
  intro xs
  induction xs with
  | nil => intro c _; rfl
  | cons y ys ih =>
      intro c hnd
      rw [removeFirst]
      rcases List.nodup_cons.mp hnd with ⟨hy, hnd'⟩
      by_cases hyc : y = c
      · rw [if_pos hyc]
        subst hyc
        rw [List.filter_cons_of_neg (by simp)]
        exact (List.filter_eq_self.mpr (fun a ha => by
          simp only [ne_eq, decide_eq_true_eq]
          exact fun hac => hy (hac ▸ ha))).symm
      · rw [if_neg hyc, List.filter_cons_of_pos (by simpa using hyc), ih c hnd']

lemma mem_removeFirst_subset : ∀ (xs : List String) (s y : String),
    y ∈ removeFirst xs s → y ∈ xs := by
  intro xs
  induction xs with
  | nil => intro s y h; exact absurd h (by simp [removeFirst])
  | cons x xs ih =>
      intro s y h
      rw [removeFirst] at h
      by_cases hxs : x = s
      · rw [if_pos hxs] at h; exact List.mem_cons_of_mem _ h
      · rw [if_neg hxs] at h
        rcases List.mem_cons.mp h with h | h
        · exact h ▸ List.mem_cons_self _ _
        · exact List.mem_cons_of_mem _ (ih s y h)

lemma removeAll_eq_filter : ∀ (exc : List (Option String)) (cols : List String),
    cols.Nodup → exc.Nodup → (∀ e ∈ exc, ∃ c, e = some c ∧ c ∈ cols) →
    removeAll cols exc = .ok (cols.filter (fun c => some c ∉ exc)) := by
  intro exc
  induction exc with
  | nil =>
      intro cols _ _ _
      rw [removeAll]
      congr 1
      exact (List.filter_eq_self.mpr (fun a _ => by simp)).symm
  | cons e es ih =>
      intro cols hcols hexc hmem
      rcases hmem e (List.mem_cons_self _ _) with ⟨c0, he, hc0⟩
      subst he
      rcases List.nodup_cons.mp hexc with ⟨hes, hes'⟩
      rw [removeAll, pyRemove, if_pos hc0, removeFirst_eq_filter cols c0 hcols]
      dsimp only
      have hnd' : (cols.filter (fun y => y ≠ c0)).Nodup := hcols.filter _
      have hmem' : ∀ e ∈ es, ∃ c, e = some c ∧ c ∈ cols.filter (fun y => y ≠ c0) := by
        intro e he
        rcases hmem e (List.mem_cons_of_mem _ he) with ⟨c, rfl, hc⟩
        refine ⟨c, rfl, List.mem_filter.mpr ⟨hc, ?_⟩⟩
        simp only [ne_eq, decide_eq_true_eq]
        intro hcc
        exact hes (hcc ▸ he)
      rw [ih _ hnd' hes' hmem', List.filter_filter]
      congr 1
      apply List.filter_congr
      intro a _
      by_cases h1 : a = c0 <;> simp [h1]

/-- C4: the classifier fails with the invalid-argument assertion when
both `exclude_col` and `include_col` are supplied; with neither it
considers every column of the dataframe; with only `include_col` it
considers exactly the included columns; with only `exclude_col`
(distinct names that are all columns of a duplicate-free frame) it
considers all columns minus the excluded ones. -/
theorem claim_C4 (f : Frame) (exc : List (Option String)) (inc : List String) :
    getColumnTypes f (some exc) (some inc)
      = .error (.assertError "Could set only one param")
    ∧ consideredColumns f none none = .ok f.names
    ∧ consideredColumns f none (some inc) = .ok inc
    ∧ (f.names.Nodup → exc.Nodup → (∀ e ∈ exc, ∃ c, e = some c ∧ c ∈ f.names) →
        consideredColumns f (some exc) none
          = .ok (f.names.filter (fun c => some c ∉ exc))) := by
  refine ⟨rfl, rfl, rfl, ?_⟩
  intro h1 h2 h3
  rw [consideredColumns]
  simp only [Option.isSome_some, Option.isSome_none, and_false, if_false]
  exact removeAll_eq_filter exc f.names h1 h2 h3

theorem claim_C4_witness :
    Frame.names frW = ["TARGET", "ID", "CAT", "NUM", "DT"]
    ∧ consideredColumns frW (some [some "TARGET", some "ID"]) none
        = .ok ["CAT", "NUM", "DT"] := by
  constructor
  · decide
  · have h := (claim_C4 frW [some "TARGET", some "ID"] []).2.2.2
      (by decide) (by decide) (by simp [frW, Frame.names])
    exact h.trans (by rfl)

lemma removeAll_missing : ∀ (exc : List (Option String)) (cols : List String) (x : String),
    some x ∈ exc → x ∉ cols → removeAll cols exc = .error .valueError := by
  intro exc
  induction exc with
  | nil => intro cols x hx _; exact absurd hx (by simp)
  | cons e es ih =>
      intro cols x hx hnx
      rw [removeAll]
      match e with
      | none => rfl
      | some s =>
          rw [pyRemove]
          by_cases hs : s ∈ cols
          · rw [if_pos hs]
            dsimp only
            rcases List.mem_cons.mp hx with he | he
            · exact absurd ((Option.some.injEq _ _).mp he.symm ▸ hs) hnx
            · exact ih _ x he (fun hmem => hnx (mem_removeFirst_subset cols s x hmem))
          · rw [if_neg hs]

lemma removeAll_hasNone : ∀ (exc : List (Option String)) (cols : List String),
    none ∈ exc → removeAll cols exc = .error .valueError := by
  intro exc
  induction exc with
  | nil => intro cols hx; exact absurd hx (by simp)
  | cons e es ih =>
      intro cols hx
      rw [removeAll]
      match e with
      | none => rfl
      | some s =>
          have hes : none ∈ es := by
            rcases List.mem_cons.mp hx with h | h
            · exact absurd h (by simp)
            · exact h
          rw [pyRemove]
          by_cases hs : s ∈ cols
          · rw [if_pos hs]
            dsimp only
            exact ih _ hes
          · rw [if_neg hs]

lemma removeAll_ok_mem : ∀ (exc : List (Option String)) (cols r : List String),
    removeAll cols exc = .ok r → ∀ c : String, some c ∈ exc → c ∈ cols := by
  intro exc
  induction exc with
  | nil => intro cols r _ c hc; exact absurd hc (by simp)
  | cons e es ih =>
      intro cols r hok c hc
      rw [removeAll] at hok
      match e, hok with
      | some s, hok =>
          rw [pyRemove] at hok
          by_cases hs : s ∈ cols
          · rw [if_pos hs] at hok
            dsimp only at hok
            rcases List.mem_cons.mp hc with h | h
            · exact ((Option.some.injEq _ _).mp h.symm) ▸ hs
            · exact mem_removeFirst_subset cols s c (ih _ _ hok c h)
          · rw [if_neg hs] at hok
            exact absurd hok (by simp)

lemma consideredColumns_exclude (f : Frame) (exc : List (Option String)) :
    consideredColumns f (some exc) none = removeAll f.names exc := by
  simp [consideredColumns]

lemma getColumnTypes_error (f : Frame) (exc : Option (List (Option String)))
    (inc : Option (List String)) (er : Err)
    (h : consideredColumns f exc inc = .error er) :
    getColumnTypes f exc inc = .error er := by
  rw [getColumnTypes, h]

/-- C10: excluding a name that is not a column raises the value error
of `list.remove`; consequently constructing `BinaryClassEDA` with the
default `id_column=None` always fails (the constructor excludes
`[target_column, None]` and `None` is never a column), and a
successful construction requires `id_column` to name an actual
column. -/
theorem claim_C10 (f : Frame) (t : String) (td : Option (List (String × String)))
    (datec : Option String) (exc : List (Option String)) (x : String) :
    (some x ∈ exc → x ∉ f.names →
      getColumnTypes f (some exc) none = .error .valueError)
    ∧ isOkE (binaryClassEDAInit f t td none datec) = false
    ∧ (∀ idc s, binaryClassEDAInit f t td (some idc) datec = .ok s → idc ∈ f.names) := by
  refine ⟨?_, ?_, ?_⟩
  · intro hx hnx
    exact getColumnTypes_error f _ _ _
      ((consideredColumns_exclude f exc).trans (removeAll_missing exc f.names x hx hnx))
  · rw [binaryClassEDAInit]
    cases hv : isValidTarget f t with
    | error er => rfl
    | ok valid =>
        cases valid with
        | false => rfl
        | true =>
            dsimp only [Bool.not_true, if_false]
            have hg : getColumnTypes f (some [some t, none]) none = .error .valueError :=
              getColumnTypes_error f _ _ _
                ((consideredColumns_exclude f _).trans
                  (removeAll_hasNone [some t, none] f.names (by simp)))
            rw [hg]
            rfl
  · intro idc s h
    rw [binaryClassEDAInit] at h
    cases hv : isValidTarget f t with
    | error er => rw [hv] at h; exact absurd h (by simp)
    | ok valid =>
        rw [hv] at h
        cases valid with
        | false => exact absurd h (by simp)
        | true =>
            dsimp only [Bool.not_true, if_false] at h
            cases hg : getColumnTypes f (some [some t, some idc]) none with
            | error er => rw [hg] at h; exact absurd h (by simp)
            | ok ct =>
                rw [getColumnTypes] at hg
                cases hc : consideredColumns f (some [some t, some idc]) none with
                | error er => rw [hc] at hg; exact absurd hg (by simp)
                | ok considered =>
                    have hra : removeAll f.names [some t, some idc] = .ok considered :=
                      (consideredColumns_exclude f _).symm.trans hc
                    exact removeAll_ok_mem _ _ _ hra idc (by simp)

theorem claim_C10_witness :
    isOkE (binaryClassEDAInit frW "TARGET" none none none) = false
    ∧ getColumnTypes frW (some [some "MISSING"]) none = .error .valueError := by
  constructor
  · exact (claim_C10 frW "TARGET" none none [] "").2.1
  · exact (claim_C10 frW "TARGET" none none [some "MISSING"] "MISSING").1
      (by simp) (by decide)

/-- C3: construction of the EDA session fails with the invalid-input
assertion "Target column must contain 1 and 0" whenever the target
column's set of distinct values is not exactly {0, 1}; a successful
construction implies the target's distinct values are exactly {0, 1};
and the check lives only in construction: the later operations
(`count_column_dtypes`, `change_dtype_group`) are functions of the
bucket mapping alone, behaving identically on any two sessions with
the same bucket mapping regardless of their target data. -/
theorem claim_C3 (f : Frame) (t : String) (td : Option (List (String × String)))
    (idc datec : Option String) (col : Column) :
    (f.find t = some col → (pdUnique col.values).toFinset ≠ {Val.vInt 1, Val.vInt 0} →
      binaryClassEDAInit f t td idc datec
        = .error (.assertError "Target column must contain 1 and 0"))
    ∧ (∀ s, binaryClassEDAInit f t td idc datec = .ok s →
        ∃ col', f.find t = some col'
          ∧ (pdUnique col'.values).toFinset = {Val.vInt 1, Val.vInt 0})
    ∧ (∀ s1 s2 : EDAState, s1.columnTypes = s2.columnTypes →
        edaCountColumnDtypes s1 = edaCountColumnDtypes s2
        ∧ ∀ nd od cc odel,
            edaResultTypes (edaChangeDtypeGroup s1 nd od cc odel)
              = edaResultTypes (edaChangeDtypeGroup s2 nd od cc odel)) := by
  refine ⟨?_, ?_, ?_⟩
  · intro hfind hne
    have hv : isValidTarget f t = .ok false := by
      rw [isValidTarget, hfind]
      dsimp only
      congr 1
      exact decide_eq_false hne
    rw [binaryClassEDAInit, hv]
    rfl
  · intro s h
    rw [binaryClassEDAInit] at h
    cases hfind : f.find t with
    | none =>
        have hv : isValidTarget f t = .error .keyError := by rw [isValidTarget, hfind]
        rw [hv] at h
        exact absurd h (by simp)
    | some col' =>
        by_cases hp : (pdUnique col'.values).toFinset = {Val.vInt 1, Val.vInt 0}
        · exact ⟨col', rfl, hp⟩
        · have hv : isValidTarget f t = .ok false := by
            rw [isValidTarget, hfind]
            dsimp only
            congr 1
            exact decide_eq_false hp
          rw [hv] at h
          exact absurd h (by simp)
  · intro s1 s2 hct
    refine ⟨?_, ?_⟩
    · rw [edaCountColumnDtypes, edaCountColumnDtypes, hct]
    · intro nd od cc odel
      rw [edaChangeDtypeGroup, edaChangeDtypeGroup, hct]
      cases hr : changeDtypeGroup s2.columnTypes nd od cc odel with
      | error er => rfl
      | ok ct => rfl

theorem claim_C3_witness :
    binaryClassEDAInit frBad "TARGET" none (some "ID") none
      = .error (.assertError "Target column must contain 1 and 0") :=
  (claim_C3 frBad "TARGET" none (some "ID") none
      ⟨.int64, [.vInt 0, .vInt 1, .vInt 2]⟩).1 (by decide) (by decide)

lemma find?_map_entry {β : Type} (d : List (String × β)) (F : String × β → String × β)
    (hF : ∀ p, (F p).1 = p.1) (k : String) :
    (d.map F).find? (fun p => p.1 = k) = (d.find? (fun p => p.1 = k)).map F := by
  induction d with
  | nil => rfl
  | cons p ps ih =>
      rw [List.map_cons]
      by_cases hk : p.1 = k
      · rw [List.find?_cons_of_pos _ (by simp [hF, hk]),
          List.find?_cons_of_pos _ (by simp [hk])]
        rfl
      · rw [List.find?_cons_of_neg _ (by simp [hF, hk]),
          List.find?_cons_of_neg _ (by simp [hk]), ih]

lemma dictGet_dictExtendList (d : ColumnTypes) (k : String) (xs : List String)
    (k' : String) :
    dictGet (dictExtendList d k xs) k'
      = if k' = k then (dictGet d k).map (fun l => l ++ xs) else dictGet d k' := by
  rw [dictGet, dictExtendList,
    find?_map_entry d (fun p => if p.1 = k then (p.1, p.2 ++ xs) else p)
      (fun p => by by_cases h : p.1 = k <;> simp [h]) k']
  by_cases hk : k' = k
  · subst hk
    rw [if_pos rfl, dictGet]
    cases hf : d.find? (fun p => p.1 = k') with
    | none => rfl
    | some p =>
        have hp : p.1 = k' := by simpa using List.find?_some hf
        simp [hp]
  · rw [if_neg hk, dictGet]
    cases hf : d.find? (fun p => p.1 = k') with
    | none => rfl
    | some p =>
        have hp : p.1 = k' := by simpa using List.find?_some hf
        have hnk : ¬ p.1 = k := fun h => hk (hp ▸ h)
        simp [hnk]

lemma dictGet_dictSet (d : ColumnTypes) (k : String) (xs : List String) (k' : String) :
    dictGet (dictSet d k xs) k'
      = if k' = k then (dictGet d k).map (fun _ => xs) else dictGet d k' := by
  rw [dictGet, dictSet,
    find?_map_entry d (fun p => if p.1 = k then (p.1, xs) else p)
      (fun p => by by_cases h : p.1 = k <;> simp [h]) k']
  by_cases hk : k' = k
  · subst hk
    rw [if_pos rfl, dictGet]
    cases hf : d.find? (fun p => p.1 = k') with
    | none => rfl
    | some p =>
        have hp : p.1 = k' := by simpa using List.find?_some hf
        simp [hp]
  · rw [if_neg hk, dictGet]
    cases hf : d.find? (fun p => p.1 = k') with
    | none => rfl
    | some p =>
        have hp : p.1 = k' := by simpa using List.find?_some hf
        have hnk : ¬ p.1 = k := fun h => hk (hp ▸ h)
        simp [hnk]

lemma dictGet_pruneBuckets (d : ColumnTypes) (cols : List String) (k : String) :
    dictGet (pruneBuckets d cols) k
      = (dictGet d k).map (fun l => l.filter (fun c => c ∉ cols)) := by
  rw [dictGet, pruneBuckets,
    find?_map_entry d (fun p => (p.1, p.2.filter (fun c => c ∉ cols)))
      (fun p => rfl) k, dictGet]
  cases hf : d.find? (fun p => p.1 = k) <;> rfl

lemma dictExtend_ok (d : ColumnTypes) (k : String) (xs l0 : List String)
    (h : dictGet d k = some l0) : dictExtend d k xs = .ok (dictExtendList d k xs) := by
  unfold dictExtend
  rw [h]

/-- C5: `change_dtype_group` with an explicit column list and
`on_delete=True` first removes the listed names from every bucket and
then appends them to the destination bucket, so each moved column ends
up in the destination bucket and in no other bucket. -/
theorem claim_C5 (ct : ColumnTypes) (newB : String) (cols l0 : List String)
    (hk : dictGet ct newB = some l0) :
    ∃ ct', changeDtypeGroup ct newB none (some cols) true = .ok ct'
      ∧ dictGet ct' newB = some (l0.filter (fun c => c ∉ cols) ++ cols)
      ∧ (∀ c ∈ cols, ∃ l, dictGet ct' newB = some l ∧ c ∈ l)
      ∧ (∀ c ∈ cols, ∀ k l', k ≠ newB → dictGet ct' k = some l' → c ∉ l') := by
  have hp : dictGet (pruneBuckets ct cols) newB
      = some (l0.filter (fun c => c ∉ cols)) := by
    rw [dictGet_pruneBuckets, hk]
    rfl
  refine ⟨dictExtendList (pruneBuckets ct cols) newB cols, ?_, ?_, ?_, ?_⟩
  · show dictExtend (pruneBuckets ct cols) newB cols = _
    rw [dictExtend, hp]
  · rw [dictGet_dictExtendList, if_pos rfl, hp]
    rfl
  · intro c hc
    refine ⟨l0.filter (fun c => c ∉ cols) ++ cols, ?_, ?_⟩
    · rw [dictGet_dictExtendList, if_pos rfl, hp]
      rfl
    · exact List.mem_append_right _ hc
  · intro c hc k l' hkne hget
    rw [dictGet_dictExtendList, if_neg hkne, dictGet_pruneBuckets] at hget
    cases hg : dictGet ct k with
    | none => rw [hg] at hget; exact absurd hget (by simp)
    | some l =>
        rw [hg] at hget
        have hl' : l' = l.filter (fun c => c ∉ cols) := by
          simpa using hget.symm
        subst hl'
        intro hmem
        have := List.mem_filter.mp hmem
        simp only [decide_not, Bool.not_eq_true', decide_eq_false_iff_not] at this
        exact this.2 hc

theorem claim_C5_witness :
    dictGet ctSmall "Binary" = some ["c"]
    ∧ isOkE (changeDtypeGroup ctSmall "Binary" none (some ["a"]) true) = true := by
  refine ⟨rfl, ?_⟩
  obtain ⟨ct', h1, -, -, -⟩ := claim_C5 ctSmall "Binary" ["a"] ["c"] rfl
  rw [h1]
  rfl

/-- C6 (amended): `change_dtype_group` with both `old_dtype` and
`change_columns` supplied fails with the attribute-configuration error
"Set old_dtype or columns"; with neither supplied it fails with a bare
assertion failure (`assert old_dtype is not None`), which is NOT the
attribute-configuration error; with exactly one of the two supplied
(and the involved bucket keys present) it succeeds. -/
theorem claim_C6 (ct : ColumnTypes) (nd od : String) (cols : List String)
    (onDel : Bool) (l0 lod : List String) :
    (changeDtypeGroup ct nd (some od) (some cols) onDel
        = .error (.attrError "Set old_dtype or columns"))
    ∧ (changeDtypeGroup ct nd none none onDel = .error (.assertError ""))
    ∧ (Err.isAttr (.assertError "") = false)
    ∧ (dictGet ct nd = some l0 → dictGet ct od = some lod →
        isOkE (changeDtypeGroup ct nd (some od) none onDel) = true)
    ∧ (dictGet ct nd = some l0 →
        isOkE (changeDtypeGroup ct nd none (some cols) onDel) = true) := by
  refine ⟨rfl, rfl, rfl, ?_, ?_⟩
  · intro h1 h2
    rw [changeDtypeGroup, h2]
    dsimp only
    rw [dictExtend_ok ct nd lod l0 h1]
    cases onDel <;> rfl
  · intro h1
    rw [changeDtypeGroup]
    cases onDel with
    | true =>
        rw [if_pos rfl, dictExtend_ok _ _ _ (l0.filter (fun c => c ∉ cols))
          (by rw [dictGet_pruneBuckets, h1]; rfl)]
        rfl
    | false =>
        rw [if_neg (by simp), dictExtend_ok _ _ _ l0 h1]
        rfl

/-- C6 counterexample: with neither `old_dtype` nor `change_columns`
supplied the call fails with a bare assertion failure, not with the
attribute-configuration error the claim announces for that case. -/
theorem claim_C6_counterexample :
    changeDtypeGroup ctSmall "Binary" none none true = .error (.assertError "")
    ∧ Err.isAttr (.assertError "") = false
    ∧ (Err.assertError "") ≠ (.attrError "Set old_dtype or columns") := by
  exact ⟨rfl, rfl, by decide⟩

theorem claim_C6_witness :
    (changeDtypeGroup ctSmall "Binary" (some "Continuous") (some ["a"]) true
        = .error (.attrError "Set old_dtype or columns"))
    ∧ isOkE (changeDtypeGroup ctSmall "Binary" (some "Continuous") none true) = true
    ∧ isOkE (changeDtypeGroup ctSmall "Binary" none (some ["a"]) false) = true := by
  refine ⟨(claim_C6 ctSmall "Binary" "Continuous" ["a"] true ["c"] ["a", "b"]).1, ?_, ?_⟩
  · exact (claim_C6 ctSmall "Binary" "Continuous" ["a"] true ["c"] ["a", "b"]).2.2.2.1
      rfl rfl
  · exact (claim_C6 ctSmall "Binary" "Continuous" ["a"] false ["c"] ["a", "b"]).2.2.2.2
      rfl

lemma strDictGet_insert (d : List (String × String)) (k v k' : String) :
    strDictGet (strDictInsert d k v) k' = if k' = k then some v else strDictGet d k' := by
  rw [strDictInsert]
  by_cases hpresent : (d.find? (fun p => p.1 = k)).isSome
  · rw [if_pos hpresent, strDictGet,
      find?_map_entry d (fun p => if p.1 = k then (p.1, v) else p)
        (fun p => by by_cases h : p.1 = k <;> simp [h]) k']
    by_cases hk : k' = k
    · subst hk
      rw [if_pos rfl]
      rcases Option.isSome_iff_exists.mp hpresent with ⟨p, hp⟩
      rw [hp]
      have hp1 : p.1 = k' := by simpa using List.find?_some hp
      simp [hp1]
    · rw [if_neg hk, strDictGet]
      cases hf : d.find? (fun p => p.1 = k') with
      | none => rfl
      | some p =>
          have hp1 : p.1 = k' := by simpa using List.find?_some hf
          have hnk : ¬ p.1 = k := fun h => hk (hp1 ▸ h)
          simp [hnk]
  · rw [if_neg hpresent, strDictGet, List.find?_append]
    by_cases hk : k' = k
    · subst hk
      have hnone : d.find? (fun p => p.1 = k') = none :=
        Option.not_isSome_iff_eq_none.mp hpresent
      rw [if_pos rfl, hnone]
      simp
    · have hsingle : List.find? (fun p => p.1 = k') ([(k, v)] : List (String × String))
          = none := by
        rw [List.find?_cons_of_neg _ (by simpa using fun h => hk h.symm), List.find?_nil]
      cases hf : d.find? (fun p => p.1 = k') with
      | none =>
          rw [if_neg hk, hsingle]
          simp [strDictGet, hf]
      | some p =>
          rw [if_neg hk, hsingle]
          simp [strDictGet, hf]

lemma strDictGet_build (ps : List (String × String)) : ∀ (d : List (String × String))
    (k : String),
    strDictGet (ps.foldl (fun d p => strDictInsert d p.1 p.2) d) k
      = match ps.reverse.find? (fun p => p.1 = k) with
        | some p => some p.2
        | none => strDictGet d k := by
  induction ps with
  | nil => intro d k; rfl
  | cons p ps ih =>
      intro d k
      rw [List.foldl_cons, ih, List.reverse_cons, List.find?_append]
      cases hq : ps.reverse.find? (fun q => q.1 = k) with
      | some q => simp
      | none =>
          simp only [Option.none_orElse]
          rw [strDictGet_insert]
          by_cases hp : p.1 = k
          · rw [List.find?_cons_of_pos _ (by simpa using hp), if_pos hp.symm]
            rfl
          · rw [List.find?_cons_of_neg _ (by simpa using hp), List.find?_nil,
              if_neg (fun h => hp h.symm)]
            rfl

lemma getTableDescription_lookup (rows : List DescRow) (t name : String) :
    strDictGet (getTableDescription rows t) name
      = match ((rows.filter (fun r => r.table = t)).map
            (fun r => (r.row, r.description))).reverse.find? (fun p => p.1 = name) with
        | some p => some p.2
        | none => none := by
  rw [getTableDescription, strDictGet_build]
  cases ((rows.filter (fun r => r.table = t)).map
      (fun r => (r.row, r.description))).reverse.find? (fun p => p.1 = name) with
  | none => rfl
  | some q => rfl

lemma mem_descPairs (rows : List DescRow) (t : String) (q : String × String) :
    q ∈ ((rows.filter (fun r => r.table = t)).map
        (fun r => (r.row, r.description))).reverse
      ↔ ∃ r ∈ rows, r.table = t ∧ r.row = q.1 ∧ r.description = q.2 := by
  rw [List.mem_reverse, List.mem_map]
  constructor
  · rintro ⟨r, hr, rfl⟩
    rcases List.mem_filter.mp hr with ⟨hrows, ht⟩
    exact ⟨r, hrows, by simpa using ht, rfl, rfl⟩
  · rintro ⟨r, hrows, ht, h1, h2⟩
    refine ⟨r, List.mem_filter.mpr ⟨hrows, by simpa using ht⟩, ?_⟩
    rw [h1, h2]

/-- C7: the description loader returns a mapping whose keys are exactly
the `Row` names of the rows whose `Table` equals the requested table
name; a name with no such row is absent from the mapping (lookup
yields no value, not an empty one); and when exactly one matching row
carries a name, the lookup returns that row's description text. -/
theorem claim_C7 (rows : List DescRow) (t name : String) :
    ((strDictGet (getTableDescription rows t) name).isSome
      ↔ ∃ r ∈ rows, r.table = t ∧ r.row = name)
    ∧ ((¬ ∃ r ∈ rows, r.table = t ∧ r.row = name) →
        strDictGet (getTableDescription rows t) name = none)
    ∧ (∀ r ∈ rows, r.table = t → r.row = name →
        (∀ r' ∈ rows, r'.table = t → r'.row = name → r' = r) →
        strDictGet (getTableDescription rows t) name = some r.description) := by
  have hiff : (strDictGet (getTableDescription rows t) name).isSome
      ↔ ∃ r ∈ rows, r.table = t ∧ r.row = name := by
    rw [getTableDescription_lookup]
    cases hq : ((rows.filter (fun r => r.table = t)).map
        (fun r => (r.row, r.description))).reverse.find? (fun p => p.1 = name) with
    | some q =>
        simp only [Option.isSome_some, true_iff]
        have hqmem := List.mem_of_find?_eq_some hq
        have hq1 : q.1 = name := by simpa using List.find?_some hq
        rcases (mem_descPairs rows t q).mp hqmem with ⟨r, hrows, ht, h1, _⟩
        exact ⟨r, hrows, ht, h1.trans hq1⟩
    | none =>
        simp only [Option.isSome_none, Bool.false_eq_true, false_iff]
        rintro ⟨r, hrows, ht, hrow⟩
        have hmem : ((r.row : String), r.description) ∈
            ((rows.filter (fun r => r.table = t)).map
              (fun r => (r.row, r.description))).reverse :=
          (mem_descPairs rows t _).mpr ⟨r, hrows, ht, rfl, rfl⟩
        have := List.find?_eq_none.mp hq _ hmem
        simp [hrow] at this
  refine ⟨hiff, ?_, ?_⟩
  · intro hne
    exact Option.not_isSome_iff_eq_none.mp (fun h => hne (hiff.mp h))
  · intro r hrows ht hrow huniq
    have hsome : (strDictGet (getTableDescription rows t) name).isSome :=
      hiff.mpr ⟨r, hrows, ht, hrow⟩
    rw [getTableDescription_lookup] at hsome ⊢
    cases hq : ((rows.filter (fun r => r.table = t)).map
        (fun r => (r.row, r.description))).reverse.find? (fun p => p.1 = name) with
    | none => rw [hq] at hsome; exact absurd hsome (by simp)
    | some q =>
        have hqmem := List.mem_of_find?_eq_some hq
        have hq1 : q.1 = name := by simpa using List.find?_some hq
        rcases (mem_descPairs rows t q).mp hqmem with ⟨r', hrows', ht', h1, h2⟩
        have : r' = r := huniq r' hrows' ht' (h1.trans hq1)
        subst this
        show some q.2 = some r'.description
        rw [h2]

theorem claim_C7_witness :
    strDictGet (getTableDescription rowsW "A") "c1" = some "d1"
    ∧ strDictGet (getTableDescription rowsW "A") "c2" = none := by
  constructor
  · exact (claim_C7 rowsW "A" "c1").2.2 ⟨"A", "c1", "d1", ""⟩ (by simp [rowsW])
      rfl rfl (by
        intro r' hr' ht' hrow'
        simp only [rowsW, List.mem_cons, List.not_mem_nil, or_false] at hr'
        rcases hr' with rfl | rfl | rfl
        · rfl
        · exact absurd ht' (by simp)
        · exact absurd hrow' (by simp))
  · exact (claim_C7 rowsW "A" "c2").2.1 (by
      rintro ⟨r, hr, ht, hrow⟩
      simp only [rowsW, List.mem_cons, List.not_mem_nil, or_false] at hr
      rcases hr with rfl | rfl | rfl
      · exact absurd hrow (by simp)
      · exact absurd ht (by simp)
      · exact absurd hrow (by simp))

lemma classifyAll_ok_eq (f : Frame) : ∀ (cs : List String)
    (cl : List (String × Option Bucket)), classifyAll f cs = .ok cl →
    cl = cs.map (fun c => (c, (f.find c).bind classifyColumn))
    ∧ ∀ c ∈ cs, (f.find c).isSome := by
  intro cs
  induction cs with
  | nil =>
      intro cl h
      rw [classifyAll] at h
      refine ⟨by simpa using h.symm, by simp⟩
  | cons c cs ih =>
      intro cl h
      rw [classifyAll] at h
      cases hf : f.find c with
      | none => rw [hf] at h; exact absurd h (by simp)
      | some col =>
          rw [hf] at h
          cases hrest : classifyAll f cs with
          | error er => rw [hrest] at h; exact absurd h (by simp)
          | ok rest =>
              rw [hrest] at h
              rcases ih rest hrest with ⟨h1, h2⟩
              have hcl : cl = (c, classifyColumn col) :: rest := by simpa using h.symm
              refine ⟨?_, ?_⟩
              · rw [hcl, h1, List.map_cons, hf]
                rfl
              · intro c' hc'
                rcases List.mem_cons.mp hc' with rfl | hc'
                · simp [hf]
                · exact h2 c' hc'

lemma pickBucket_map (cs : List String) (h : String → Option Bucket) (b : Bucket) :
    pickBucket (cs.map (fun c => (c, h c))) b = cs.filter (fun c => h c = some b) := by
  induction cs with
  | nil => rfl
  | cons c cs ih =>
      rw [List.map_cons, pickBucket, List.filterMap_cons]
      by_cases hc : h c = some b
      · rw [List.filter_cons_of_pos (by simpa using hc)]
        simp only [hc, if_pos rfl]
        rw [← ih]
        rfl
      · rw [List.filter_cons_of_neg (by simpa using hc)]
        simp only [if_neg hc]
        rw [← ih]
        rfl

lemma classifyColumn_eq_none_iff (col : Column) :
    classifyColumn col = none ↔ col.dtype = .datetime64 := by
  cases hd : col.dtype <;> simp only [classifyColumn, hd] <;> try simp
  all_goals (split <;> try simp [hd])
  all_goals (split <;> simp [hd])

lemma countP_four_buckets (h : String → Option Bucket) : ∀ cs : List String,
    cs.countP (fun c => h c = some .Continuous) + cs.countP (fun c => h c = some .Binary)
      + cs.countP (fun c => h c = some .Nominal) + cs.countP (fun c => h c = some .Unknown)
      = cs.countP (fun c => (h c).isSome) := by
  intro cs
  induction cs with
  | nil => simp
  | cons c cs ih =>
      simp only [List.countP_cons]
      cases hc : h c with
      | none => simp [hc, ih]
      | some b =>
          cases b <;> simp [hc] <;> omega

lemma countP_congr_mem (p q : String → Bool) : ∀ cs : List String,
    (∀ c ∈ cs, p c = q c) → cs.countP p = cs.countP q := by
  intro cs
  induction cs with
  | nil => intro _; rfl
  | cons c cs ih =>
      intro h
      rw [List.countP_cons, List.countP_cons, h c (List.mem_cons_self _ _),
        ih (fun c' hc' => h c' (List.mem_cons_of_mem _ hc'))]

/-- C2: after classification, the four buckets are pairwise disjoint,
every bucket member is a considered column, a considered column lands
in some bucket exactly when it is not a date/time column, and the
per-bucket counts of `count_column_dtypes` sum to the number of
considered non-date/time columns. -/
theorem claim_C2 (f : Frame) (exc : Option (List (Option String)))
    (inc : Option (List String)) (r : ColumnTypes)
    (hr : getColumnTypes f exc inc = .ok r) :
    ∃ considered, consideredColumns f exc inc = .ok considered
      ∧ (∀ c b1 b2, c ∈ bucketList r b1 → c ∈ bucketList r b2 → b1 = b2)
      ∧ (∀ c b, c ∈ bucketList r b → c ∈ considered)
      ∧ (∀ c ∈ considered, (∃ b, c ∈ bucketList r b) ↔ isDatetimeCol f c = false)
      ∧ ((countColumnDtypes r).map Prod.snd).sum
          = considered.countP (fun c => !isDatetimeCol f c) := by
  rw [getColumnTypes] at hr
  cases hc : consideredColumns f exc inc with
  | error er => rw [hc] at hr; exact absurd hr (by simp)
  | ok considered =>
      rw [hc] at hr
      dsimp only at hr
      cases hcl : classifyAll f considered with
      | error er => rw [hcl] at hr; exact absurd hr (by simp)
      | ok cl =>
          rw [hcl] at hr
          obtain ⟨hcleq, hfind⟩ := classifyAll_ok_eq f considered cl hcl
          have hrval : r =
              [("Continuous", considered.filter
                  (fun c => (f.find c).bind classifyColumn = some .Continuous)),
               ("Binary", considered.filter
                  (fun c => (f.find c).bind classifyColumn = some .Binary)),
               ("Nominal", considered.filter
                  (fun c => (f.find c).bind classifyColumn = some .Nominal)),
               ("Unknown", considered.filter
                  (fun c => (f.find c).bind classifyColumn = some .Unknown))] := by
            have hr' : r = [("Continuous", pickBucket cl .Continuous),
                ("Binary", pickBucket cl .Binary),
                ("Nominal", pickBucket cl .Nominal),
                ("Unknown", pickBucket cl .Unknown)] := by simpa using hr.symm
            rw [hr', hcleq, pickBucket_map, pickBucket_map, pickBucket_map, pickBucket_map]
          have hbl : ∀ b : Bucket, bucketList r b
              = considered.filter (fun c => (f.find c).bind classifyColumn = some b) := by
            intro b
            rw [hrval]
            cases b <;> rfl
          have hmem : ∀ (c : String) (b : Bucket), c ∈ bucketList r b ↔
              c ∈ considered ∧ (f.find c).bind classifyColumn = some b := by
            intro c b
            rw [hbl b, List.mem_filter]
            simp
          refine ⟨considered, rfl, ?_, ?_, ?_, ?_⟩
          · intro c b1 b2 h1 h2
            have e1 := ((hmem c b1).mp h1).2
            have e2 := ((hmem c b2).mp h2).2
            rw [e1] at e2
            exact Option.some.inj e2
          · intro c b hcb
            exact ((hmem c b).mp hcb).1
          · intro c hcmem
            rcases Option.isSome_iff_exists.mp (hfind c hcmem) with ⟨col, hcol⟩
            constructor
            · rintro ⟨b, hb⟩
              have hbc := ((hmem c b).mp hb).2
              rw [hcol, Option.some_bind] at hbc
              have hdt : col.dtype ≠ .datetime64 := fun h => by
                rw [(classifyColumn_eq_none_iff col).mpr h] at hbc
                exact absurd hbc (by simp)
              rw [isDatetimeCol, hcol]
              simpa using hdt
            · intro hnd
              rw [isDatetimeCol, hcol] at hnd
              have hdt : col.dtype ≠ .datetime64 := by simpa using hnd
              have hne : classifyColumn col ≠ none :=
                fun h => hdt ((classifyColumn_eq_none_iff col).mp h)
              rcases Option.ne_none_iff_exists.mp hne with ⟨b, hb⟩
              refine ⟨b, (hmem c b).mpr ⟨hcmem, ?_⟩⟩
              rw [hcol]
              exact hb.symm
          · have e1 := (List.countP_eq_length_filter
              (fun c => (f.find c).bind classifyColumn = some Bucket.Continuous)
              considered).symm
            have e2 := (List.countP_eq_length_filter
              (fun c => (f.find c).bind classifyColumn = some Bucket.Binary)
              considered).symm
            have e3 := (List.countP_eq_length_filter
              (fun c => (f.find c).bind classifyColumn = some Bucket.Nominal)
              considered).symm
            have e4 := (List.countP_eq_length_filter
              (fun c => (f.find c).bind classifyColumn = some Bucket.Unknown)
              considered).symm
            have hsum4 := countP_four_buckets (fun c => (f.find c).bind classifyColumn)
              considered
            have hcongr : considered.countP
                (fun c => ((f.find c).bind classifyColumn).isSome)
                = considered.countP (fun c => !isDatetimeCol f c) := by
              apply countP_congr_mem
              intro c hcmem
              rcases Option.isSome_iff_exists.mp (hfind c hcmem) with ⟨col, hcol⟩
              rw [hcol, isDatetimeCol, hcol]
              show (classifyColumn col).isSome = _
              cases hcc : classifyColumn col with
              | none =>
                  have := (classifyColumn_eq_none_iff col).mp hcc
                  simp [this]
              | some b =>
                  have : col.dtype ≠ .datetime64 :=
                    fun h => by
                      rw [(classifyColumn_eq_none_iff col).mpr h] at hcc
                      exact absurd hcc (by simp)
                  simp [this]
            rw [hrval]
            simp only [countColumnDtypes, List.map_cons, List.map_nil, List.sum_cons,
              List.sum_nil]
            rw [e1, e2, e3, e4, ← hcongr, ← hsum4]
            omega

theorem claim_C2_witness :
    getColumnTypes frW (some [some "TARGET", some "ID"]) none = .ok ctW
    ∧ ((countColumnDtypes ctW).map Prod.snd).sum = 2 := by
  constructor
  · rfl
  · obtain ⟨considered, hc, -, -, -, hsum⟩ :=
      claim_C2 frW (some [some "TARGET", some "ID"]) none ctW (by rfl)
    have hcc : considered = ["CAT", "NUM", "DT"] := by
      have h2 : consideredColumns frW (some [some "TARGET", some "ID"]) none
          = .ok ["CAT", "NUM", "DT"] := by rfl
      exact Except.ok.inj (hc.symm.trans h2)
    rw [hsum, hcc]
    rfl

lemma find_update (f : Frame) (n : String) (g : Column → Column) (c : String) :
    (f.update n g).find c = if c = n then (f.find c).map g else f.find c := by
  rw [Frame.find, Frame.update]
  show ((f.cols.map (fun p => if p.1 = n then (p.1, g p.2) else p)).find?
    (fun p => p.1 = c)).map Prod.snd = _
  rw [find?_map_entry f.cols (fun p => if p.1 = n then (p.1, g p.2) else p)
    (fun p => by by_cases h : p.1 = n <;> simp [h]) c]
  by_cases hc : c = n
  · subst hc
    rw [if_pos rfl, Frame.find]
    cases hf : f.cols.find? (fun p => p.1 = c) with
    | none => rfl
    | some p =>
        have hp : p.1 = c := by simpa using List.find?_some hf
        simp [hp]
  · rw [if_neg hc, Frame.find]
    cases hf : f.cols.find? (fun p => p.1 = c) with
    | none => rfl
    | some p =>
        have hp : p.1 = c := by simpa using List.find?_some hf
        have hnk : ¬ p.1 = n := fun h => hc (hp ▸ h)
        simp [hnk]

lemma foldl_update_find (g : Column → Column) : ∀ (ns : List String) (f : Frame)
    (c : String), ns.Nodup →
    (c ∉ ns → (ns.foldl (fun d col => d.update col g) f).find c = f.find c)
    ∧ (c ∈ ns → (ns.foldl (fun d col => d.update col g) f).find c = (f.find c).map g) := by
  intro ns
  induction ns with
  | nil => intro f c _; exact ⟨fun _ => rfl, fun h => absurd h (by simp)⟩
  | cons n ns ih =>
      intro f c hnd
      rcases List.nodup_cons.mp hnd with ⟨hn, hnd'⟩
      rw [List.foldl_cons]
      constructor
      · intro hc
        have hc1 : c ≠ n := fun h => hc (h ▸ List.mem_cons_self _ _)
        have hc2 : c ∉ ns := fun h => hc (List.mem_cons_of_mem _ h)
        rw [(ih (f.update n g) c hnd').1 hc2, find_update, if_neg hc1]
      · intro hc
        rcases List.mem_cons.mp hc with rfl | hcns
        · have hc2 : c ∉ ns := hn
          rw [(ih (f.update c g) c hnd').1 hc2, find_update, if_pos rfl]
        · have hc1 : c ≠ n := fun h => hn (h ▸ hcns)
          rw [(ih (f.update n g) c hnd').2 hcns, find_update, if_neg hc1]

/-- C9: the plotting routines mutate the plotted columns of the
dataframe in place and leave them mutated: in the toolkit method every
non-textual plotted column is coerced to text and its missing values
are replaced by the literal text "NaN" (after which every cell of a
coerced column is a string), in the standalone plotter the column is
only coerced to text; every column outside the plotted set is
unchanged. -/
theorem claim_C9 (f : Frame) (plotCols : List String) (c : String) (col : Column)
    (hnd : plotCols.Nodup) :
    (c ∈ plotCols → f.find c = some col →
      (plotMutateToolkit f plotCols).find c = some (toolkitCoerce col)
      ∧ (plotMutateBars f plotCols).find c = some (barsCoerce col)
      ∧ (col.dtype ≠ .object →
          ∀ v ∈ (toolkitCoerce col).values, ∃ s, v = Val.vStr s))
    ∧ (c ∉ plotCols →
      (plotMutateToolkit f plotCols).find c = f.find c
      ∧ (plotMutateBars f plotCols).find c = f.find c) := by
  constructor
  · intro hc hfind
    refine ⟨?_, ?_, ?_⟩
    · rw [plotMutateToolkit, (foldl_update_find toolkitCoerce plotCols f c hnd).2 hc,
        hfind]
      rfl
    · rw [plotMutateBars, (foldl_update_find barsCoerce plotCols f c hnd).2 hc, hfind]
      rfl
    · intro hobj v hv
      rw [toolkitCoerce, if_pos hobj] at hv
      rw [fillna, astypeStr] at hv
      simp only [List.mem_map] at hv
      rcases hv with ⟨w, ⟨u, hu, rfl⟩, rfl⟩
      by_cases hw : u = Val.vNA
      · simp [hw]
      · simp [hw]
  · intro hc
    exact ⟨by rw [plotMutateToolkit, (foldl_update_find toolkitCoerce plotCols f c hnd).1 hc],
      by rw [plotMutateBars, (foldl_update_find barsCoerce plotCols f c hnd).1 hc]⟩

theorem claim_C9_witness :
    (plotMutateToolkit frW ["NUM"]).find "NUM"
        = some ⟨.object, [.vStr "1", .vStr "2", .vStr "NaN"]⟩
    ∧ (plotMutateToolkit frW ["NUM"]).find "CAT" = Frame.find frW "CAT" := by
  constructor
  · have h := ((claim_C9 frW ["NUM"] "NUM" ⟨.float64, [.vInt 1, .vInt 2, .vNA]⟩
      (by decide)).1 (by decide) (by rfl)).1
    exact h.trans (by rfl)
  · exact ((claim_C9 frW ["NUM"] "CAT" ⟨.float64, []⟩ (by decide)).2 (by decide)).1

lemma foldl_max_of_le : ∀ (l : List ℚ) (a : ℚ), (∀ x ∈ l, x ≤ a) → l.foldl max a = a := by
  intro l
  induction l with
  | nil => intro a _; rfl
  | cons b l ih =>
      intro a h
      rw [List.foldl_cons, max_eq_left (h b (List.mem_cons_self _ _))]
      exact ih a (fun x hx => h x (List.mem_cons_of_mem _ hx))

lemma foldl_min_of_ge : ∀ (l : List ℚ) (a : ℚ), (∀ x ∈ l, a ≤ x) → l.foldl min a = a := by
  intro l
  induction l with
  | nil => intro a _; rfl
  | cons b l ih =>
      intro a h
      rw [List.foldl_cons, min_eq_left (h b (List.mem_cons_self _ _))]
      exact ih a (fun x hx => h x (List.mem_cons_of_mem _ hx))

lemma foldl_min_pos : ∀ (l : List ℚ) (a : ℚ), 0 < a → (∀ x ∈ l, 0 < x) →
    0 < l.foldl min a := by
  intro l
  induction l with
  | nil => intro a ha _; exact ha
  | cons b l ih =>
      intro a ha h
      rw [List.foldl_cons]
      exact ih _ (lt_min ha (h b (List.mem_cons_self _ _)))
        (fun x hx => h x (List.mem_cons_of_mem _ hx))

lemma minFreq_pos (dist : FreqDist) (hne : dist ≠ []) (hpos : ∀ p ∈ dist, 0 < p.2) :
    0 < minFreq dist := by
  cases dist with
  | nil => exact absurd rfl hne
  | cons p ps =>
      rw [minFreq]
      refine foldl_min_pos _ _ (hpos p (List.mem_cons_self _ _)) ?_
      intro x hx
      rcases List.mem_map.mp hx with ⟨q, hq, rfl⟩
      exact hpos q (List.mem_cons_of_mem _ hq)

lemma maxFreq_of_const (dist : FreqDist) (m : ℚ)
    (h : ∀ p ∈ dist, p.2 = m) (hne : dist ≠ []) : maxFreq dist = m := by
  cases dist with
  | nil => exact absurd rfl hne
  | cons p ps =>
      rw [maxFreq, h p (List.mem_cons_self _ _)]
      apply foldl_max_of_le
      intro x hx
      rcases List.mem_map.mp hx with ⟨q, hq, rfl⟩
      rw [h q (List.mem_cons_of_mem _ hq)]

lemma minFreq_of_const (dist : FreqDist) (m : ℚ)
    (h : ∀ p ∈ dist, p.2 = m) (hne : dist ≠ []) : minFreq dist = m := by
  cases dist with
  | nil => exact absurd rfl hne
  | cons p ps =>
      rw [minFreq, h p (List.mem_cons_self _ _)]
      apply foldl_min_of_ge
      intro x hx
      rcases List.mem_map.mp hx with ⟨q, hq, rfl⟩
      rw [h q (List.mem_cons_of_mem _ hq)]

lemma freqOf_cons_self (l0 : Val) (q0 : ℚ) (rest : FreqDist) :
    freqOf ((l0, q0) :: rest) l0 = q0 := by
  rw [freqOf, List.find?_cons_of_pos _ (by simp)]
  rfl

lemma freqOf_cons_ne (l0 : Val) (q0 : ℚ) (rest : FreqDist) (l : Val) (h : l0 ≠ l) :
    freqOf ((l0, q0) :: rest) l = freqOf rest l := by
  rw [freqOf, List.find?_cons_of_neg _ (by simpa using h), freqOf]

lemma labels_filter_freqOf (P : ℚ → Bool) : ∀ dist : FreqDist,
    (dist.map Prod.fst).Nodup →
    (dist.map Prod.fst).filter (fun l => P (freqOf dist l))
      = (dist.filter (fun p => P p.2)).map Prod.fst := by
  intro dist
  induction dist with
  | nil => intro _; rfl
  | cons p rest ih =>
      intro hnd
      rw [List.map_cons] at hnd
      rcases List.nodup_cons.mp hnd with ⟨hp, hnd'⟩
      have hhead : freqOf (p :: rest) p.1 = p.2 := freqOf_cons_self p.1 p.2 rest
      have htail : (rest.map Prod.fst).filter (fun l => P (freqOf (p :: rest) l))
          = (rest.map Prod.fst).filter (fun l => P (freqOf rest l)) := by
        apply List.filter_congr
        intro l hl
        have hne : p.1 ≠ l := fun h => hp (h ▸ hl)
        rw [freqOf_cons_ne p.1 p.2 rest l hne]
      rw [List.map_cons]
      by_cases hP : P p.2
      · rw [List.filter_cons_of_pos (by rw [hhead]; exact hP),
          List.filter_cons_of_pos (by exact hP), htail, ih hnd', List.map_cons]
      · rw [List.filter_cons_of_neg (by rw [hhead]; simpa using hP),
          List.filter_cons_of_neg (by simpa using hP), htail, ih hnd']

lemma sorted_drop_filter (θ : ℚ) : ∀ dist : FreqDist,
    dist.Pairwise (fun p q => q.2 ≤ p.2) →
    (dist.map Prod.fst).drop ((dist.filter (fun p => θ < p.2)).length)
      = (dist.filter (fun p => p.2 ≤ θ)).map Prod.fst := by
  intro dist
  induction dist with
  | nil => intro _; rfl
  | cons p rest ih =>
      intro hpw
      rcases List.pairwise_cons.mp hpw with ⟨hp, hpw'⟩
      by_cases hθ : θ < p.2
      · rw [List.filter_cons_of_pos (by simpa using hθ),
          List.filter_cons_of_neg (by simpa using not_le.mpr hθ),
          List.length_cons, List.map_cons, List.drop_succ_cons]
        exact ih hpw'
      · have hle : p.2 ≤ θ := not_lt.mp hθ
        rw [List.filter_cons_of_neg (by simpa using hθ)]
        have hnil : rest.filter (fun p => θ < p.2) = [] :=
          List.filter_eq_nil_iff.mpr
            (fun q hq => by simpa using not_lt.mpr ((hp q hq).trans hle))
        rw [hnil, List.length_nil, List.drop_zero,
          List.filter_cons_of_pos (by simpa using hle)]
        have hself : rest.filter (fun p => p.2 ≤ θ) = rest :=
          List.filter_eq_self.mpr (fun q hq => by simpa using (hp q hq).trans hle)
        rw [hself]

/-- C8: the plotting routines take the two-chart (major/minor) layout
exactly when the ratio of the most frequent value's overall relative
frequency to the least frequent value's exceeds 10; in that case the
minor labels — the prefix-length slice the code takes of the
frequency-sorted label list — are exactly the labels whose frequency
is at most 0.1 times the maximum, i.e. the complement of the major
labels in distribution order; and when all values are equally frequent
the single-chart path is taken. -/
theorem claim_C8 (dist : FreqDist)
    (hs : dist.Pairwise (fun p q => q.2 ≤ p.2))
    (hnd : (dist.map Prod.fst).Nodup)
    (hpos : ∀ p ∈ dist, 0 < p.2)
    (hne : dist ≠ []) :
    (twoChartLayout dist = true ↔ maxFreq dist / minFreq dist > 10)
    ∧ (minorLabels dist
        = (distLabels dist).filter
            (fun l => freqOf dist l ≤ (1 / 10 : ℚ) * maxFreq dist))
    ∧ ((∀ p ∈ dist, ∀ q ∈ dist, p.2 = q.2) → twoChartLayout dist = false) := by
  have hmin := minFreq_pos dist hne hpos
  refine ⟨?_, ?_, ?_⟩
  · rw [twoChartLayout, decide_eq_true_eq, gt_iff_lt, gt_iff_lt, lt_div_iff₀ hmin]
  · have hmaj : majorLabels dist
        = (dist.filter (fun p => (1 / 10 : ℚ) * maxFreq dist < p.2)).map Prod.fst := by
      rw [majorLabels, distLabels]
      simp only [gt_iff_lt]
      exact labels_filter_freqOf (fun x => decide ((1 / 10 : ℚ) * maxFreq dist < x))
        dist hnd
    have hrhs : (dist.map Prod.fst).filter
          (fun l => freqOf dist l ≤ (1 / 10 : ℚ) * maxFreq dist)
        = (dist.filter (fun p => p.2 ≤ (1 / 10 : ℚ) * maxFreq dist)).map Prod.fst :=
      labels_filter_freqOf (fun x => decide (x ≤ (1 / 10 : ℚ) * maxFreq dist)) dist hnd
    rw [minorLabels, hmaj, List.length_map, distLabels, hrhs]
    exact sorted_drop_filter ((1 / 10 : ℚ) * maxFreq dist) dist hs
  · intro heq
    obtain ⟨p, ps, hd⟩ : ∃ p ps, dist = p :: ps := by
      cases dist with
      | nil => exact absurd rfl hne
      | cons a l => exact ⟨a, l, rfl⟩
    have hmem : p ∈ dist := hd ▸ List.mem_cons_self _ _
    have hconst : ∀ q ∈ dist, q.2 = p.2 := fun q hq => heq q hq p hmem
    have hmax : maxFreq dist = p.2 := maxFreq_of_const dist p.2 hconst hne
    have hminc : minFreq dist = p.2 := minFreq_of_const dist p.2 hconst hne
    have hppos : 0 < p.2 := hpos p hmem
    rw [twoChartLayout, hmax, hminc]
    apply decide_eq_false
    rw [gt_iff_lt, not_lt]
    linarith

theorem claim_C8_witness :
    twoChartLayout distW = true ∧ minorLabels distW = [Val.vStr "b"] := by
  have hmax : maxFreq distW = max 11 1 := rfl
  have hmin : minFreq distW = min 11 1 := rfl
  have hmax' : maxFreq distW = 11 := by rw [hmax]; exact max_eq_left (by norm_num)
  have hmin' : minFreq distW = 1 := by rw [hmin]; exact min_eq_right (by norm_num)
  have h := claim_C8 distW
    (by norm_num [distW, List.pairwise_cons])
    (by simp [distW])
    (by norm_num [distW, List.forall_mem_cons])
    (by simp [distW])
  refine ⟨h.1.mpr ?_, h.2.1.trans ?_⟩
  · rw [gt_iff_lt, hmax', hmin']
    norm_num
  · have ha : freqOf distW (Val.vStr "a") = 11 := rfl
    have hb : freqOf distW (Val.vStr "b") = 1 := rfl
    show List.filter _ [Val.vStr "a", Val.vStr "b"] = _
    rw [List.filter_cons_of_neg (by simp [ha, hmax']; norm_num),
      List.filter_cons_of_pos (by simp [hb, hmax']; norm_num), List.filter_nil]
